import Mathlib

/-!
Verification development for a small same-origin web crawler script.

The URL handling mirrors the two functions of urllib.parse that the script
uses (urlsplit and urljoin, CPython 3.11 semantics on the string surface the
script exercises, without the ValueError raised for mismatched IPv6
brackets).  The crawler itself (create_full_link, get_internal_links,
process_page, update_links_to_visit, pool, looper_with_pool) is embedded as
pure functions over explicit state: Python sets become duplicate-free lists
with insertion at the tail, the HTTP session becomes a function from URL to
an optional fetch outcome (none models a transport exception), and the
worker pool becomes an in-order traversal of the frontier that fails as a
whole when any single fetch raises, exactly as multiprocessing starmap
re-raises a worker exception in the parent.  The loop of looper_with_pool
is driven by fuel; outOfFuel for every fuel amount means the Python loop
never exits.
-/

namespace SWC

/-! ### Low-level character-list helpers (model of urllib.parse internals) -/

/-- CPython urlsplit removes tab, carriage return and newline before parsing. -/
def removeUnsafe (s : List Char) : List Char :=
  s.filter (fun c => !(c == '\t' || c == '\r' || c == '\n'))

/-- Split a character list at the first occurrence of a separator.
Models str.split(sep, 1) and str.find based splitting. -/
def splitFirst (c : Char) : List Char → Option (List Char × List Char)
  | [] => none
  | a :: t =>
    if a = c then some ([], t)
    else
      match splitFirst c t with
      | none => none
      | some (x, y) => some (a :: x, y)

/-- Model of str.split(sep) for a one-character separator: empty pieces kept,
the empty string splits to one empty piece. -/
def splitOnChar (c : Char) : List Char → List (List Char)
  | [] => [[]]
  | a :: t =>
    if a = c then [] :: splitOnChar c t
    else
      match splitOnChar c t with
      | [] => [[a]]
      | h :: r => (a :: h) :: r

/-- Model of sep.join(pieces) for a one-character separator. -/
def joinChar (c : Char) : List (List Char) → List Char
  | [] => []
  | [a] => a
  | a :: b :: r => a ++ c :: joinChar c (b :: r)

/-- Model of urllib.parse._splitnetloc: take characters up to the first
of the three delimiters, return the rest starting with the delimiter. -/
def splitNetloc : List Char → List Char × List Char
  | [] => ([], [])
  | a :: t =>
    if a = '/' ∨ a = '?' ∨ a = '#' then ([], a :: t)
    else
      let p := splitNetloc t
      (a :: p.1, p.2)

/-- urllib.parse.scheme_chars. -/
def schemeChars : List Char :=
  "abcdefghijklmnopqrstuvwxyzABCDEFGHIJKLMNOPQRSTUVWXYZ0123456789+-.".data

def isSchemeChar (c : Char) : Bool := decide (c ∈ schemeChars)

/-- c.isascii() and c.isalpha() of CPython for one character. -/
def isAsciiAlpha (c : Char) : Bool :=
  decide (('A' ≤ c ∧ c ≤ 'Z') ∨ ('a' ≤ c ∧ c ≤ 'z'))

/-- The five components of urllib.parse.urlsplit. -/
structure SplitUrl where
  scheme : List Char
  netloc : List Char
  path : List Char
  query : List Char
  fragment : List Char
deriving DecidableEq

/-- Scheme extraction step of urlsplit: a scheme exists when a colon occurs,
the text before it is nonempty, starts with an ASCII letter and consists of
scheme characters only; the scheme is lowercased. -/
def splitScheme (url : List Char) : List Char × List Char :=
  match splitFirst ':' url with
  | some (c0 :: rest, post) =>
    if isAsciiAlpha c0 && (c0 :: rest).all isSchemeChar then
      ((c0 :: rest).map Char.toLower, post)
    else ([], url)
  | some ([], _) => ([], url)
  | none => ([], url)

/-- Netloc extraction step of urlsplit: only after a leading double slash. -/
def splitNetlocPart (u : List Char) : List Char × List Char :=
  if u.take 2 = ['/', '/'] then splitNetloc (u.drop 2) else ([], u)

/-- Fragment extraction step of urlsplit (first hash sign). -/
def splitFragmentPart (url : List Char) : List Char × List Char :=
  match splitFirst '#' url with
  | some (pre, post) => (pre, post)
  | none => (url, [])

/-- Query extraction step of urlsplit (first question mark, after the
fragment was removed). -/
def splitQueryPart (url : List Char) : List Char × List Char :=
  match splitFirst '?' url with
  | some (pre, post) => (pre, post)
  | none => (url, [])

/-- Model of urllib.parse.urlsplit (scheme, netloc, path, query, fragment). -/
def urlsplitCore (url : List Char) : SplitUrl :=
  let url1 := removeUnsafe url
  let sp := splitScheme url1
  let np := splitNetlocPart sp.2
  let fp := splitFragmentPart np.2
  let qp := splitQueryPart fp.1
  ⟨sp.1, np.1, qp.1, qp.2, fp.2⟩

/-- urllib.parse.uses_relative. -/
def uses_relative : List (List Char) :=
  (["", "ftp", "http", "gopher", "nntp", "imap", "wais", "file", "https",
    "shttp", "mms", "prospero", "rtsp", "rtspu", "sftp", "svn", "svn+ssh",
    "ws", "wss"] : List String).map String.data

/-- urllib.parse.uses_netloc. -/
def uses_netloc : List (List Char) :=
  (["", "ftp", "http", "gopher", "nntp", "telnet", "imap", "wais", "file",
    "mms", "https", "shttp", "snews", "prospero", "rtsp", "rtspu", "rsync",
    "svn", "svn+ssh", "sftp", "nfs", "git", "git+ssh", "ws", "wss",
    "itms-services"] : List String).map String.data

/-- Model of urllib.parse.urlunsplit. -/
def urlunsplit (u : SplitUrl) : List Char :=
  let p1 :=
    if u.netloc ≠ [] ∨ u.path.take 2 = ['/', '/'] then
      '/' :: '/' :: (u.netloc ++
        (if u.path ≠ [] ∧ u.path.take 1 ≠ ['/'] then '/' :: u.path else u.path))
    else u.path
  let p2 := if u.scheme ≠ [] then u.scheme ++ ':' :: p1 else p1
  let p3 := if u.query ≠ [] then p2 ++ '?' :: u.query else p2
  if u.fragment ≠ [] then p3 ++ '#' :: u.fragment else p3

/-- One step of the segment resolution loop of urljoin: double dot pops the
accumulated path (pop on empty is ignored), single dot is skipped. -/
def resolveStep (acc : List (List Char)) (seg : List Char) : List (List Char) :=
  if seg = ['.', '.'] then acc.dropLast
  else if seg = ['.'] then acc
  else acc ++ [seg]

/-- Helper for the slice assignment segments[1:-1] = filter(None, ...):
drop empty pieces but always keep the final piece. -/
def midKeepLast : List (List Char) → List (List Char)
  | [] => []
  | [a] => [a]
  | a :: b :: r =>
    if a = [] then midKeepLast (b :: r) else a :: midKeepLast (b :: r)

/-- segments[1:-1] = filter(None, segments[1:-1]): the first and the last
piece are kept unconditionally. -/
def applyMidFilter : List (List Char) → List (List Char)
  | [] => []
  | [a] => [a]
  | a :: b :: r => a :: midKeepLast (b :: r)

/-- The segment list of the relative path merge of urljoin: the base path
segments with a non-directory final segment dropped, joined with the
reference path segments, unless the reference path is rooted. -/
def mergeSegments (bpath rpath : List Char) : List (List Char) :=
  if rpath.take 1 = ['/'] then splitOnChar '/' rpath
  else
    let bp0 := splitOnChar '/' bpath
    let bp := if bp0.getLast? ≠ some [] then bp0.dropLast else bp0
    applyMidFilter (bp ++ splitOnChar '/' rpath)

/-- The segment resolution loop of urljoin followed by rejoining, with the
trailing empty segment for a relative-directory last segment and the
fallback to a bare slash for an empty join. -/
def resolveSegments (segments : List (List Char)) : List Char :=
  let res0 := segments.foldl resolveStep []
  let res :=
    if segments.getLast? = some ['.'] ∨ segments.getLast? = some ['.', '.'] then
      res0 ++ [[]]
    else res0
  let p := joinChar '/' res
  if p = [] then ['/'] else p

/-- The relative path merge of urljoin (the code below the early returns). -/
def mergePaths (bpath rpath : List Char) : List Char :=
  resolveSegments (mergeSegments bpath rpath)

/-- Model of urllib.parse.urljoin. -/
def urljoin (base url : List Char) : List Char :=
  if base = [] then url
  else if url = [] then base
  else
    let b := urlsplitCore base
    let r := urlsplitCore url
    let scheme := if r.scheme = [] then b.scheme else r.scheme
    if scheme ≠ b.scheme ∨ scheme ∉ uses_relative then url
    else if scheme ∈ uses_netloc ∧ r.netloc ≠ [] then
      urlunsplit ⟨scheme, r.netloc, r.path, r.query, r.fragment⟩
    else
      let netloc := if scheme ∈ uses_netloc then b.netloc else r.netloc
      if r.path = [] then
        urlunsplit ⟨scheme, netloc, b.path,
          if r.query = [] then b.query else r.query, r.fragment⟩
      else
        urlunsplit ⟨scheme, netloc, mergePaths b.path r.path, r.query, r.fragment⟩

/-! ### The script functions (src/script.py) -/

/-- Python substring membership: needle in hay. -/
def strIn (needle : List Char) : List Char → Bool
  | [] => needle.isPrefixOf []
  | a :: t => needle.isPrefixOf (a :: t) || strIn needle t

/-- script.py create_full_link.  When the internal link has a netloc the
for/else loop over the middle labels parts[1:-1] of the hostname netloc
returns the join at the first label occurring as substring of the link
netloc, and the else clause of the loop returns None when no label matched;
otherwise the hostname is joined with the path component of the link. -/
def create_full_link (hostname internal_link : String) : Option String :=
  let hostname_split := urlsplitCore hostname.data
  let internal_link_split := urlsplitCore internal_link.data
  if internal_link_split.netloc ≠ [] then
    if (((splitOnChar '.' hostname_split.netloc).drop 1).dropLast).any
        (fun part => strIn part internal_link_split.netloc) then
      some ⟨urljoin hostname.data internal_link.data⟩
    else none
  else some ⟨urljoin hostname.data internal_link_split.path⟩

/-- Per-page response statistics: url, elapsed milliseconds, status code. -/
abbrev StatsTuple := String × Nat × Nat

/-- Python set.add on a duplicate-free list. -/
def sadd {α : Type} [DecidableEq α] (s : List α) (a : α) : List α :=
  if a ∈ s then s else s ++ [a]

/-- Python set.discard on a duplicate-free list. -/
def sdiscard {α : Type} [DecidableEq α] (s : List α) (a : α) : List α :=
  s.filter (fun x => x ≠ a)

/-- Materialize a list as a set (first occurrence kept). -/
def sdedup {α : Type} [DecidableEq α] (l : List α) : List α :=
  l.foldl sadd []

/-- script.py get_internal_links: the soup is modelled as the list of href
attribute values of the anchors of the page in document order; the CSS
selector keeps exactly the hrefs literally starting with the hostname
string or with a slash, and the result is materialized as a set. -/
def get_internal_links (base : String) (soup : List String × StatsTuple) :
    List String × StatsTuple :=
  (sdedup (soup.1.filter
      (fun h => base.data.isPrefixOf h.data || "/".data.isPrefixOf h.data)),
   soup.2)

/-- What one fetch of a URL yields: the href values of the anchors of the
page, and the response statistics. -/
structure FetchOutcome where
  hrefs : List String
  elapsed : Nat
  status : Nat
deriving DecidableEq

/-- The web as seen through session.get: none models a transport exception
(timeout, connection failure) raised by the request. -/
abbrev Web : Type := String → Option FetchOutcome

/-- script.py process_page (cook_soup composed with get_internal_links and
create_full_link): none when the fetch raises. -/
def process_page (w : Web) (hostname url : String) :
    Option (List String × StatsTuple) :=
  match w url with
  | none => none
  | some oc =>
    let links := get_internal_links hostname (oc.hrefs, (url, oc.elapsed, oc.status))
    some (sdedup (links.1.filterMap (create_full_link hostname)), links.2)

/-- script.py update_links_to_visit: for each new link, if it is already in
visited it is discarded from the frontier, otherwise it is added to the
frontier and to visited; the stats tuple of the providing page is added to
stats; the second component of links_to_visit is passed through unchanged. -/
def update_links_to_visit (new_links : List String × StatsTuple)
    (links_to_visit : List String × StatsTuple) (visited : List String)
    (stats : List StatsTuple) :
    (List String × StatsTuple) × List String × List StatsTuple :=
  let fv := new_links.1.foldl
    (fun (fv : List String × List String) link =>
      if link ∈ fv.2 then (sdiscard fv.1 link, fv.2)
      else (sadd fv.1 link, sadd fv.2 link))
    (links_to_visit.1, visited)
  ((fv.1, links_to_visit.2), fv.2, sadd stats new_links.2)

/-- script.py pool: starmap process_page over the whole frontier (an
exception in any worker re-raises in the parent, hence none), then fold
update_links_to_visit over the results in order. -/
def pool (w : Web) (hostname : String) (links_to_visit : List String × StatsTuple)
    (visited : List String) (stats : List StatsTuple) :
    Option ((List String × StatsTuple) × List String × List StatsTuple) :=
  match links_to_visit.1.mapM (fun link => process_page w hostname link) with
  | none => none
  | some results =>
    some (results.foldl
      (fun st item => update_links_to_visit item st.1 st.2.1 st.2.2)
      (links_to_visit, visited, stats))

/-- Outcome of a run of looper_with_pool.  done records the returned stats,
the visited set as left behind in the shared default argument, and the ghost
list of all URLs that were fetched (seed first, then each pool round in
order).  aborted models an uncaught exception; outOfFuel for every fuel
means the while loop never exits. -/
inductive RunResult where
  | done (stats : List StatsTuple) (visited : List String) (fetched : List String)
  | aborted
  | outOfFuel
deriving DecidableEq

/-- The while loop of looper_with_pool, driven by fuel. -/
def crawl_loop (w : Web) (hostname : String) :
    Nat → List String × StatsTuple → List String → List StatsTuple →
    List String → RunResult
  | 0, _, _, _, _ => RunResult.outOfFuel
  | fuel + 1, links_to_visit, visited, stats, fetched =>
    if links_to_visit.1 = [] then RunResult.done stats visited fetched
    else
      match pool w hostname links_to_visit visited stats with
      | none => RunResult.aborted
      | some st =>
        crawl_loop w hostname fuel st.1 st.2.1 st.2.2 (fetched ++ links_to_visit.1)

/-- script.py looper_with_pool: the seed (the hostname itself) is processed
first, stats starts empty, and the visited argument models the mutable
default argument set() that is created once and shared by every call. -/
def looper_with_pool (w : Web) (hostname : String) (visited : List String)
    (fuel : Nat) : RunResult :=
  match process_page w hostname hostname with
  | none => RunResult.aborted
  | some links_to_visit => crawl_loop w hostname fuel links_to_visit visited [] [hostname]

/-! ### Concrete link graphs used to settle the crawl claims -/

/-- The seed hostname used in the concrete graphs. -/
def seedUrl : String := "https://e.com"

/-- Cycle graph: the seed page links to /a, page /a links to /b, page /b
links back to /a. -/
def webCycle : Web := fun u =>
  if u = "https://e.com" then some ⟨["/a"], 5, 200⟩
  else if u = "https://e.com/a" then some ⟨["/b"], 7, 200⟩
  else if u = "https://e.com/b" then some ⟨["/a"], 9, 200⟩
  else none

/-- Self-link graph: the seed page links to /a and page /a links to itself. -/
def webSelf : Web := fun u =>
  if u = "https://e.com" then some ⟨["/a"], 5, 200⟩
  else if u = "https://e.com/a" then some ⟨["/a"], 7, 200⟩
  else none

/-- Seed-only graph: the seed page has no outgoing links at all. -/
def webSeedOnly : Web := fun u =>
  if u = "https://e.com" then some ⟨[], 5, 200⟩ else none

/-- Failure graph: the seed page links /x, /y, /z; fetching /x raises a
transport exception (none); /y and /z respond normally. -/
def webFail : Web := fun u =>
  if u = "https://e.com" then some ⟨["/x", "/y", "/z"], 5, 200⟩
  else if u = "https://e.com/y" then some ⟨[], 6, 200⟩
  else if u = "https://e.com/z" then some ⟨[], 7, 204⟩
  else none

/-- Two-run graph: the seed links /a; page /a links /a and /p; page /p links
/a and /p.  Both pages are fetched in a fresh run and the run terminates. -/
def webTwoRuns : Web := fun u =>
  if u = "https://e.com" then some ⟨["/a"], 5, 200⟩
  else if u = "https://e.com/a" then some ⟨["/a", "/p"], 7, 200⟩
  else if u = "https://e.com/p" then some ⟨["/a", "/p"], 9, 200⟩
  else none

/-- First offer of the URL /u into an empty crawl state. -/
def offer1 :=
  update_links_to_visit (["https://e.com/u"], ("https://e.com/p1", 3, 200))
    ([], ("https://e.com", 5, 200)) [] []

/-- Second offer of the same URL /u before it was claimed. -/
def offer2 :=
  update_links_to_visit (["https://e.com/u"], ("https://e.com/p2", 4, 200))
    offer1.1 offer1.2.1 offer1.2.2

/-- Inputs on which the urlsplit model is exact: CPython raises ValueError
for a mismatched IPv6 bracket in a netloc, a case the model does not
reproduce, so the universally quantified theorems assume bracket-free
strings. -/
def noBrackets (s : String) : Prop := '[' ∉ s.data ∧ ']' ∉ s.data

instance (s : String) : Decidable (noBrackets s) := by
  unfold noBrackets; infer_instance

/-! ### Set-membership helper lemmas -/

lemma mem_sadd {α : Type} [DecidableEq α] {s : List α} {a x : α} :
    x ∈ sadd s a ↔ x ∈ s ∨ x = a := by
  unfold sadd
  split
  · rename_i hmem
    constructor
    · exact Or.inl
    · rintro (hx | rfl)
      · exact hx
      · exact hmem
  · simp [List.mem_append]

lemma mem_foldl_sadd {α : Type} [DecidableEq α] :
    ∀ (l init : List α) (x : α), x ∈ l.foldl sadd init ↔ x ∈ init ∨ x ∈ l
  | [], init, x => by simp
  | a :: t, init, x => by
    rw [List.foldl_cons, mem_foldl_sadd t (sadd init a) x, mem_sadd]
    simp only [List.mem_cons]
    tauto

lemma mem_sdedup {α : Type} [DecidableEq α] (l : List α) (x : α) :
    x ∈ sdedup l ↔ x ∈ l := by
  unfold sdedup
  rw [mem_foldl_sadd]
  simp

/-- Membership in the set returned by get_internal_links: exactly the hrefs
of the page that literally start with the hostname string or with a slash. -/
lemma get_internal_links_mem (base : String) (hs : List String) (st : StatsTuple)
    (h : String) :
    h ∈ (get_internal_links base (hs, st)).1 ↔
      h ∈ hs ∧ (base.data.isPrefixOf h.data = true ∨ "/".data.isPrefixOf h.data = true) := by
  unfold get_internal_links
  rw [mem_sdedup, List.mem_filter]
  simp [Bool.or_eq_true]

/-! ### C1: termination on finite cyclic graphs -/

/-- On webCycle the crawl reaches the state below after two pool rounds and
that state is a fixpoint of the loop body with a nonempty frontier, so any
remaining fuel is consumed without the loop ever exiting. -/
lemma cycle_fix : ∀ (n : Nat) (fetched : List String),
    crawl_loop webCycle seedUrl n
      (["https://e.com/a"], ("https://e.com", 5, 200))
      ["https://e.com/b", "https://e.com/a"]
      [("https://e.com/a", 7, 200), ("https://e.com/b", 9, 200)] fetched
      = RunResult.outOfFuel
  | 0, _ => rfl
  | n + 1, fetched => by
    have h : crawl_loop webCycle seedUrl (n + 1)
        (["https://e.com/a"], ("https://e.com", 5, 200))
        ["https://e.com/b", "https://e.com/a"]
        [("https://e.com/a", 7, 200), ("https://e.com/b", 9, 200)] fetched
        = crawl_loop webCycle seedUrl n
          (["https://e.com/a"], ("https://e.com", 5, 200))
          ["https://e.com/b", "https://e.com/a"]
          [("https://e.com/a", 7, 200), ("https://e.com/b", 9, 200)]
          (fetched ++ ["https://e.com/a"]) := rfl
    rw [h]
    exact cycle_fix n _

/-- The loop started on the frontier discovered from the seed never exits. -/
lemma cycle_start : ∀ (n : Nat) (fetched : List String),
    crawl_loop webCycle seedUrl n
      (["https://e.com/a"], ("https://e.com", 5, 200)) [] [] fetched
      = RunResult.outOfFuel := by
  intro n fetched
  rcases n with _ | _ | m
  · rfl
  · rfl
  · have h : crawl_loop webCycle seedUrl (m + 1 + 1)
        (["https://e.com/a"], ("https://e.com", 5, 200)) [] [] fetched
        = crawl_loop webCycle seedUrl m
          (["https://e.com/a"], ("https://e.com", 5, 200))
          ["https://e.com/b", "https://e.com/a"]
          [("https://e.com/a", 7, 200), ("https://e.com/b", 9, 200)]
          ((fetched ++ ["https://e.com/a"]) ++
            ["https://e.com/a", "https://e.com/b"]) := rfl
    rw [h]
    exact cycle_fix m _

/-- C1: the claim says the pool-driven crawl terminates on every finite
same-origin link graph, including cycles, with stats covering every
reachable URL exactly once.  On the cyclic graph seed → /a → /b → /a the
while loop of looper_with_pool never exits (a fetched URL is removed from
the frontier only when a later page rediscovers it while it is in visited,
so the frontier stabilizes at the nonempty set containing /a), hence no
fuel amount suffices. -/
theorem C1_cycle_nonterminating :
    ∀ fuel : Nat, looper_with_pool webCycle seedUrl [] fuel = RunResult.outOfFuel := by
  intro fuel
  have h : looper_with_pool webCycle seedUrl [] fuel
      = crawl_loop webCycle seedUrl fuel
        (["https://e.com/a"], ("https://e.com", 5, 200)) [] [] ["https://e.com"] := rfl
  rw [h]
  exact cycle_start fuel _

/-! ### C2: at-most-once fetching -/

/-- C2: the claim says each URL is fetched at most once in every run.  On
the self-link graph the run terminates, /a appears once in stats, but the
ghost fetch log records /a twice: it is fetched in round one and, still
sitting in the frontier, fetched again in round two before its rediscovery
discards it. -/
theorem C2_url_fetched_twice :
    looper_with_pool webSelf seedUrl [] 3
      = RunResult.done [("https://e.com/a", 7, 200)] ["https://e.com/a"]
        ["https://e.com", "https://e.com/a", "https://e.com/a"] ∧
    (["https://e.com", "https://e.com/a", "https://e.com/a"].count
      "https://e.com/a") = 2 := by
  exact ⟨rfl, rfl⟩

/-! ### C3: seed-only graph -/

/-- C3: the claim says a seed page with zero outgoing same-origin links
yields a stats collection of size one containing the seed result.  The code
returns the empty stats set: the seed statistics live in the second
component of links_to_visit, which update_links_to_visit never adds to
stats, and the loop exits before any pool round runs. -/
theorem C3_seed_only_empty_stats :
    looper_with_pool webSeedOnly seedUrl [] 1
      = RunResult.done [] [] ["https://e.com"] := by
  rfl

/-! ### C4: idempotent offer -/

/-- C4: the claim says offering the same unclaimed URL twice leaves exactly
one instance of it in the frontier.  In the code the first offer adds the
URL to the frontier and to visited, and the second offer finds it in
visited and discards it from the frontier: zero instances remain, the URL
stays marked visited, and it will never be fetched. -/
theorem C4_double_offer_loses_url :
    offer1.1.1.count "https://e.com/u" = 1 ∧
    offer2.1.1.count "https://e.com/u" = 0 ∧
    "https://e.com/u" ∈ offer2.2.1 := by
  refine ⟨rfl, rfl, ?_⟩
  decide

/-! ### C7: error isolation -/

/-- C7: the claim says a transport failure on one URL is absorbed, recorded
as an error result, and the other frontier URLs are still fetched.  In
looper_with_pool there is no exception handling: the worker exception for
/x re-raises out of starmap and the whole run aborts, with /y and /z never
reported and no stats returned (the absorbing try/except exists only in the
unused sequential looper). -/
theorem C7_pool_aborts_on_fetch_error :
    looper_with_pool webFail seedUrl [] 5 = RunResult.aborted := by
  rfl

/-! ### C8: no state across runs -/

/-- C8: the claim says every invocation of looper_with_pool starts from an
empty visited set, so a second run in the same process returns the same
stats as a fresh one.  visited is a mutable default argument created once:
the second call starts with the visited set left by the first, the page /p
is then discarded instead of fetched, and the second run returns strictly
fewer stats than the identical fresh run. -/
theorem C8_visited_persists_across_runs :
    looper_with_pool webTwoRuns seedUrl [] 3
      = RunResult.done
        [("https://e.com/a", 7, 200), ("https://e.com/p", 9, 200)]
        ["https://e.com/a", "https://e.com/p"]
        ["https://e.com", "https://e.com/a", "https://e.com/a", "https://e.com/p"] ∧
    looper_with_pool webTwoRuns seedUrl ["https://e.com/a", "https://e.com/p"] 3
      = RunResult.done [("https://e.com/a", 7, 200)]
        ["https://e.com/a", "https://e.com/p"] ["https://e.com", "https://e.com/a"] ∧
    ([("https://e.com/a", 7, 200)] : List StatsTuple)
      ≠ [("https://e.com/a", 7, 200), ("https://e.com/p", 9, 200)] := by
  refine ⟨rfl, rfl, ?_⟩
  decide

/-! ### C5: same-origin acceptance policy of create_full_link -/

/-- C5 counterexample: the claim says an href whose resolved authority
equals the authority of the base hostname is accepted.  With base
https://example.com the netloc example.com has no middle labels, so the
for loop body never runs and the else clause rejects even an href with the
identical authority. -/
theorem C5_same_authority_rejected :
    create_full_link "https://example.com" "https://example.com/x" = none ∧
    (urlsplitCore "https://example.com/x".data).netloc
      = (urlsplitCore "https://example.com".data).netloc := by
  exact ⟨rfl, rfl⟩

/-- C5 as amended: create_full_link accepts an href exactly when its netloc
is empty, or when some middle dot-separated label of the hostname netloc
occurs as a substring of the href netloc; authority equality is neither
necessary nor sufficient.  The two concrete examples of the claim do hold:
https://other.com/x is rejected and /about resolves to
https://example.com/about. -/
theorem C5_acceptance_characterization :
    (∀ hostname internal_link : String,
      noBrackets hostname → noBrackets internal_link →
      ((create_full_link hostname internal_link).isSome = true ↔
        ((urlsplitCore internal_link.data).netloc = [] ∨
          (((splitOnChar '.' (urlsplitCore hostname.data).netloc).drop 1).dropLast).any
            (fun part => strIn part (urlsplitCore internal_link.data).netloc) = true))) ∧
    create_full_link "https://example.com" "https://other.com/x" = none ∧
    create_full_link "https://example.com" "/about" = some "https://example.com/about" := by
  refine ⟨?_, rfl, rfl⟩
  intro hostname internal_link _ _
  by_cases hn : (urlsplitCore internal_link.data).netloc = []
  · simp [create_full_link, hn]
  · by_cases ha :
      (((splitOnChar '.' (urlsplitCore hostname.data).netloc).drop 1).dropLast).any
        (fun part => strIn part (urlsplitCore internal_link.data).netloc) = true
    · simp [create_full_link, hn, ha]
    · simp [create_full_link, hn, ha]

/-- Witness for the hypotheses of the amended C5 theorem, at an input whose
hostname has a middle label. -/
theorem C5_acceptance_characterization_witness :
    (create_full_link "https://www.ihned.cz" "https://www.ihned.cz/x").isSome = true ↔
      ((urlsplitCore "https://www.ihned.cz/x".data).netloc = [] ∨
        (((splitOnChar '.' (urlsplitCore "https://www.ihned.cz".data).netloc).drop 1).dropLast).any
          (fun part => strIn part (urlsplitCore "https://www.ihned.cz/x".data).netloc) = true) :=
  C5_acceptance_characterization.1 "https://www.ihned.cz" "https://www.ihned.cz/x"
    (by decide) (by decide)

/-! ### C9: the link selector -/

/-- C9 counterexample: the claim says scheme-relative hrefs never enter the
crawl, but //evil.com/x starts with a slash and is selected. -/
theorem C9_scheme_relative_href_returned :
    "//evil.com/x" ∈ (get_internal_links "https://example.com"
      (["//evil.com/x"], ("https://example.com", 5, 200))).1 := by
  decide

/-- C9 as amended: get_internal_links returns exactly the hrefs literally
starting with the hostname string or with a slash; path-relative hrefs
(starting with neither) are never returned, while scheme-relative hrefs do
match the slash rule and are returned. -/
theorem C9_selector_characterization :
    (∀ (base : String) (hs : List String) (st : StatsTuple) (h : String),
      h ∈ (get_internal_links base (hs, st)).1 ↔
        h ∈ hs ∧ (base.data.isPrefixOf h.data = true ∨ "/".data.isPrefixOf h.data = true)) ∧
    (∀ (hs : List String) (st : StatsTuple) (h : String),
      "/".data.isPrefixOf h.data = false →
      ("https://example.com" : String).data.isPrefixOf h.data = false →
      h ∉ (get_internal_links "https://example.com" (hs, st)).1) := by
  refine ⟨get_internal_links_mem, ?_⟩
  intro hs st h hslash hbase hmem
  rcases (get_internal_links_mem "https://example.com" hs st h).mp hmem with ⟨_, hpre | hpre⟩
  · rw [hbase] at hpre
    exact Bool.false_ne_true hpre
  · rw [hslash] at hpre
    exact Bool.false_ne_true hpre

/-- Witness for the hypotheses of the amended C9 theorem: the path-relative
href page.html is not returned. -/
theorem C9_selector_characterization_witness :
    "page.html" ∉ (get_internal_links "https://example.com"
      (["page.html"], ("https://example.com", 5, 200))).1 :=
  C9_selector_characterization.2 ["page.html"] ("https://example.com", 5, 200)
    "page.html" (by decide) (by decide)

/-! ### C6: fragments under normalization -/

/-- C6 counterexample: the claim says no URL returned by create_full_link
contains a fragment, but an accepted href that carries its own netloc is
joined whole and keeps its fragment. -/
theorem C6_absolute_href_keeps_fragment :
    create_full_link "https://www.ihned.cz" "https://www.ihned.cz/page#frag"
      = some "https://www.ihned.cz/page#frag" ∧
    '#' ∈ ("https://www.ihned.cz/page#frag" : String).data := by
  refine ⟨rfl, ?_⟩
  decide

/-! ### Character lemmas about the urlsplit stages -/

lemma splitFirst_some_eq (c : Char) :
    ∀ (s a b : List Char), splitFirst c s = some (a, b) → s = a ++ c :: b ∧ c ∉ a
  | [], a, b => by simp [splitFirst]
  | x :: t, a, b => by
    unfold splitFirst
    by_cases hx : x = c
    · subst hx
      simp only [if_pos rfl, Option.some.injEq, Prod.mk.injEq]
      rintro ⟨rfl, rfl⟩
      simp
    · simp only [if_neg hx]
      cases ht : splitFirst c t with
      | none => simp
      | some p =>
        obtain ⟨u, v⟩ := p
        simp only [Option.some.injEq, Prod.mk.injEq]
        rintro ⟨rfl, rfl⟩
        obtain ⟨he, hm⟩ := splitFirst_some_eq c t u v ht
        constructor
        · rw [List.cons_append, he]
        · intro hc
          rcases List.mem_cons.mp hc with h1 | h1
          · exact hx h1.symm
          · exact hm h1

lemma splitFirst_none (c : Char) :
    ∀ s : List Char, splitFirst c s = none → c ∉ s
  | [], _ => by simp
  | x :: t, h => by
    unfold splitFirst at h
    by_cases hx : x = c
    · simp [hx] at h
    · simp only [if_neg hx] at h
      cases ht : splitFirst c t with
      | none =>
        intro hc
        rcases List.mem_cons.mp hc with h1 | h1
        · exact hx h1.symm
        · exact splitFirst_none c t ht h1
      | some p => rw [ht] at h; obtain ⟨u, v⟩ := p; simp at h

lemma splitFirst_eq_none_of_not_mem (c : Char) :
    ∀ s : List Char, c ∉ s → splitFirst c s = none
  | [], _ => rfl
  | x :: t, h => by
    have hx : x ≠ c := fun he => h (he ▸ List.mem_cons_self x t)
    have ht : c ∉ t := fun hm => h (List.mem_cons_of_mem x hm)
    unfold splitFirst
    rw [if_neg hx, splitFirst_eq_none_of_not_mem c t ht]

lemma splitNetloc_append : ∀ s : List Char, (splitNetloc s).1 ++ (splitNetloc s).2 = s
  | [] => rfl
  | a :: t => by
    unfold splitNetloc
    split
    · rfl
    · simpa using splitNetloc_append t

lemma splitNetloc_fst_no (x : Char) (hx : x = '/' ∨ x = '?' ∨ x = '#') :
    ∀ s : List Char, x ∉ (splitNetloc s).1
  | [] => by simp [splitNetloc]
  | a :: t => by
    unfold splitNetloc
    split
    · simp
    · rename_i hd
      intro hmem
      rcases List.mem_cons.mp hmem with rfl | hmem
      · exact hd (by tauto)
      · exact splitNetloc_fst_no x hx t hmem

lemma mem_removeUnsafe {x : Char} {s : List Char} (h : x ∈ removeUnsafe s) : x ∈ s :=
  (List.mem_filter.mp h).1

lemma mem_splitScheme_snd {x : Char} (s : List Char) (h : x ∈ (splitScheme s).2) :
    x ∈ s := by
  unfold splitScheme at h
  cases hsf : splitFirst ':' s with
  | none => rw [hsf] at h; exact h
  | some p =>
    obtain ⟨pre, post⟩ := p
    rw [hsf] at h
    cases pre with
    | nil => exact h
    | cons c0 rest =>
      dsimp only at h
      by_cases hc : (isAsciiAlpha c0 && (c0 :: rest).all isSchemeChar) = true
      · rw [if_pos hc] at h
        rw [(splitFirst_some_eq ':' s _ _ hsf).1]
        exact List.mem_append.mpr (Or.inr (List.mem_cons_of_mem _ h))
      · rw [if_neg hc] at h
        exact h

lemma mem_splitScheme_fst (x : Char) (s : List Char)
    (hx : ∀ y ∈ schemeChars, Char.toLower y ≠ x) : x ∉ (splitScheme s).1 := by
  unfold splitScheme
  cases hsf : splitFirst ':' s with
  | none => simp
  | some p =>
    obtain ⟨pre, post⟩ := p
    cases pre with
    | nil => simp
    | cons c0 rest =>
      dsimp only
      by_cases hc : (isAsciiAlpha c0 && (c0 :: rest).all isSchemeChar) = true
      · rw [if_pos hc]
        intro hmem
        obtain ⟨y, hy, hyx⟩ := List.mem_map.mp hmem
        have hall := (Bool.and_eq_true _ _).mp hc |>.2
        have hys : y ∈ schemeChars :=
          of_decide_eq_true (List.all_eq_true.mp hall y hy)
        exact hx y hys hyx
      · rw [if_neg hc]
        simp

lemma mem_splitNetlocPart_snd {x : Char} (s : List Char)
    (h : x ∈ (splitNetlocPart s).2) : x ∈ s := by
  unfold splitNetlocPart at h
  split at h
  · have : x ∈ (splitNetloc (s.drop 2)).1 ++ (splitNetloc (s.drop 2)).2 :=
      List.mem_append.mpr (Or.inr h)
    rw [splitNetloc_append] at this
    exact List.drop_subset 2 s this
  · exact h

lemma splitNetlocPart_fst_no (x : Char) (hx : x = '/' ∨ x = '?' ∨ x = '#')
    (s : List Char) : x ∉ (splitNetlocPart s).1 := by
  unfold splitNetlocPart
  split
  · exact splitNetloc_fst_no x hx _
  · simp

lemma splitFragmentPart_fst_no (s : List Char) : '#' ∉ (splitFragmentPart s).1 := by
  unfold splitFragmentPart
  cases h : splitFirst '#' s with
  | none => exact splitFirst_none '#' s h
  | some p =>
    obtain ⟨a, b⟩ := p
    exact (splitFirst_some_eq '#' s a b h).2

lemma mem_splitFragmentPart_fst {x : Char} (s : List Char)
    (h : x ∈ (splitFragmentPart s).1) : x ∈ s := by
  unfold splitFragmentPart at h
  cases hsf : splitFirst '#' s with
  | none => rw [hsf] at h; exact h
  | some p =>
    obtain ⟨a, b⟩ := p
    rw [hsf] at h
    rw [(splitFirst_some_eq '#' s a b hsf).1]
    exact List.mem_append.mpr (Or.inl h)

lemma mem_splitFragmentPart_snd {x : Char} (s : List Char)
    (h : x ∈ (splitFragmentPart s).2) : x ∈ s := by
  unfold splitFragmentPart at h
  cases hsf : splitFirst '#' s with
  | none => rw [hsf] at h; simp at h
  | some p =>
    obtain ⟨a, b⟩ := p
    rw [hsf] at h
    rw [(splitFirst_some_eq '#' s a b hsf).1]
    exact List.mem_append.mpr (Or.inr (List.mem_cons_of_mem _ h))

lemma splitFragmentPart_of_not_mem (s : List Char) (h : '#' ∉ s) :
    splitFragmentPart s = (s, []) := by
  unfold splitFragmentPart
  rw [splitFirst_eq_none_of_not_mem '#' s h]

lemma splitQueryPart_fst_no (s : List Char) : '?' ∉ (splitQueryPart s).1 := by
  unfold splitQueryPart
  cases h : splitFirst '?' s with
  | none => exact splitFirst_none '?' s h
  | some p =>
    obtain ⟨a, b⟩ := p
    exact (splitFirst_some_eq '?' s a b h).2

lemma mem_splitQueryPart_fst {x : Char} (s : List Char)
    (h : x ∈ (splitQueryPart s).1) : x ∈ s := by
  unfold splitQueryPart at h
  cases hsf : splitFirst '?' s with
  | none => rw [hsf] at h; exact h
  | some p =>
    obtain ⟨a, b⟩ := p
    rw [hsf] at h
    rw [(splitFirst_some_eq '?' s a b hsf).1]
    exact List.mem_append.mpr (Or.inl h)

lemma mem_splitQueryPart_snd {x : Char} (s : List Char)
    (h : x ∈ (splitQueryPart s).2) : x ∈ s := by
  unfold splitQueryPart at h
  cases hsf : splitFirst '?' s with
  | none => rw [hsf] at h; simp at h
  | some p =>
    obtain ⟨a, b⟩ := p
    rw [hsf] at h
    rw [(splitFirst_some_eq '?' s a b hsf).1]
    exact List.mem_append.mpr (Or.inr (List.mem_cons_of_mem _ h))

lemma splitQueryPart_of_not_mem (s : List Char) (h : '?' ∉ s) :
    splitQueryPart s = (s, []) := by
  unfold splitQueryPart
  rw [splitFirst_eq_none_of_not_mem '?' s h]

/-! ### Character lemmas about the urlsplit components -/

lemma urlsplit_path_no_hash (s : List Char) : '#' ∉ (urlsplitCore s).path :=
  fun hx => splitFragmentPart_fst_no _ (mem_splitQueryPart_fst _ hx)

lemma urlsplit_path_no_q (s : List Char) : '?' ∉ (urlsplitCore s).path :=
  fun hx => splitQueryPart_fst_no _ hx

lemma urlsplit_query_no_hash (s : List Char) : '#' ∉ (urlsplitCore s).query :=
  fun hx => splitFragmentPart_fst_no _ (mem_splitQueryPart_snd _ hx)

lemma urlsplit_netloc_no (s : List Char) (x : Char)
    (hx : x = '/' ∨ x = '?' ∨ x = '#') : x ∉ (urlsplitCore s).netloc :=
  splitNetlocPart_fst_no x hx _

lemma urlsplit_scheme_no (s : List Char) (x : Char)
    (hx : ∀ y ∈ schemeChars, Char.toLower y ≠ x) : x ∉ (urlsplitCore s).scheme :=
  mem_splitScheme_fst x _ hx

lemma mem_urlsplit_fragment {x : Char} (s : List Char)
    (h : x ∈ (urlsplitCore s).fragment) : x ∈ s :=
  mem_removeUnsafe (mem_splitScheme_snd _ (mem_splitNetlocPart_snd _
    (mem_splitFragmentPart_snd _ h)))

lemma urlsplit_fragment_empty (s : List Char) (h : '#' ∉ s) :
    (urlsplitCore s).fragment = [] := by
  have h2 : '#' ∉ (splitNetlocPart (splitScheme (removeUnsafe s)).2).2 :=
    fun hx => h (mem_removeUnsafe (mem_splitScheme_snd _ (mem_splitNetlocPart_snd _ hx)))
  show (splitFragmentPart (splitNetlocPart (splitScheme (removeUnsafe s)).2).2).2 = []
  rw [splitFragmentPart_of_not_mem _ h2]

lemma urlsplit_query_empty (s : List Char) (h : '?' ∉ s) :
    (urlsplitCore s).query = [] := by
  have h2 : '?' ∉ (splitFragmentPart (splitNetlocPart (splitScheme (removeUnsafe s)).2).2).1 :=
    fun hx => h (mem_removeUnsafe (mem_splitScheme_snd _ (mem_splitNetlocPart_snd _
      (mem_splitFragmentPart_fst _ hx))))
  show (splitQueryPart (splitFragmentPart (splitNetlocPart (splitScheme (removeUnsafe s)).2).2).1).2 = []
  rw [splitQueryPart_of_not_mem _ h2]

/-! ### Character lemmas about the path merge of urljoin -/

lemma mem_splitOnChar (c : Char) :
    ∀ (s l : List Char), l ∈ splitOnChar c s → ∀ x ∈ l, x ∈ s
  | [], l, hl, x, hx => by
    simp only [splitOnChar, List.mem_singleton] at hl
    subst hl
    simp at hx
  | a :: t, l, hl, x, hx => by
    unfold splitOnChar at hl
    by_cases hac : a = c
    · rw [if_pos hac] at hl
      rcases List.mem_cons.mp hl with rfl | hl
      · simp at hx
      · exact List.mem_cons_of_mem a (mem_splitOnChar c t l hl x hx)
    · rw [if_neg hac] at hl
      cases hrec : splitOnChar c t with
      | nil =>
        rw [hrec] at hl
        simp only [List.mem_singleton] at hl
        subst hl
        rcases List.mem_singleton.mp hx with rfl
        exact List.mem_cons_self _ _
      | cons hd tl =>
        rw [hrec] at hl
        rcases List.mem_cons.mp hl with rfl | hl
        · rcases List.mem_cons.mp hx with rfl | hx
          · exact List.mem_cons_self _ _
          · refine List.mem_cons_of_mem a (mem_splitOnChar c t hd ?_ x hx)
            rw [hrec]
            exact List.mem_cons_self _ _
        · refine List.mem_cons_of_mem a (mem_splitOnChar c t l ?_ x hx)
          rw [hrec]
          exact List.mem_cons_of_mem _ hl

lemma mem_joinChar (c : Char) :
    ∀ (l : List (List Char)) (x : Char), x ∈ joinChar c l → x = c ∨ ∃ s ∈ l, x ∈ s
  | [], x, hx => by simp [joinChar] at hx
  | [a], x, hx => by
    right
    exact ⟨a, List.mem_cons_self _ _, hx⟩
  | a :: b :: r, x, hx => by
    unfold joinChar at hx
    rcases List.mem_append.mp hx with hx | hx
    · right
      exact ⟨a, List.mem_cons_self _ _, hx⟩
    · rcases List.mem_cons.mp hx with rfl | hx
      · exact Or.inl rfl
      · rcases mem_joinChar c (b :: r) x hx with h | ⟨s, hs, hxs⟩
        · exact Or.inl h
        · exact Or.inr ⟨s, List.mem_cons_of_mem _ hs, hxs⟩

lemma mem_midKeepLast : ∀ (l : List (List Char)) (s : List Char),
    s ∈ midKeepLast l → s ∈ l
  | [], s, h => by simp [midKeepLast] at h
  | [a], s, h => by simpa [midKeepLast] using h
  | a :: b :: r, s, h => by
    unfold midKeepLast at h
    split at h
    · exact List.mem_cons_of_mem a (mem_midKeepLast (b :: r) s h)
    · rcases List.mem_cons.mp h with rfl | h
      · exact List.mem_cons_self _ _
      · exact List.mem_cons_of_mem a (mem_midKeepLast (b :: r) s h)

lemma mem_applyMidFilter : ∀ (l : List (List Char)) (s : List Char),
    s ∈ applyMidFilter l → s ∈ l
  | [], s, h => by simp [applyMidFilter] at h
  | [a], s, h => by simpa [applyMidFilter] using h
  | a :: b :: r, s, h => by
    unfold applyMidFilter at h
    rcases List.mem_cons.mp h with rfl | h
    · exact List.mem_cons_self _ _
    · exact List.mem_cons_of_mem a (mem_midKeepLast (b :: r) s h)

lemma mem_foldl_resolveStep :
    ∀ (segs acc : List (List Char)) (s : List Char),
      s ∈ segs.foldl resolveStep acc → s ∈ acc ∨ s ∈ segs
  | [], acc, s, h => Or.inl h
  | a :: t, acc, s, h => by
    rw [List.foldl_cons] at h
    rcases mem_foldl_resolveStep t (resolveStep acc a) s h with h1 | h1
    · unfold resolveStep at h1
      split at h1
      · exact Or.inl (List.dropLast_subset acc h1)
      · split at h1
        · exact Or.inl h1
        · rcases List.mem_append.mp h1 with h2 | h2
          · exact Or.inl h2
          · simp only [List.mem_singleton] at h2
            subst h2
            exact Or.inr (List.mem_cons_self _ _)
    · exact Or.inr (List.mem_cons_of_mem _ h1)

lemma mem_mergeSegments (bpath rpath : List Char) (s : List Char)
    (hs : s ∈ mergeSegments bpath rpath) : ∀ x ∈ s, x ∈ bpath ∨ x ∈ rpath := by
  intro x hx
  unfold mergeSegments at hs
  split at hs
  · exact Or.inr (mem_splitOnChar '/' rpath s hs x hx)
  · have hs2 := mem_applyMidFilter _ _ hs
    rcases List.mem_append.mp hs2 with h1 | h1
    · revert h1
      split
      · intro h1
        exact Or.inl (mem_splitOnChar '/' bpath s
          (List.dropLast_subset _ h1) x hx)
      · intro h1
        exact Or.inl (mem_splitOnChar '/' bpath s h1 x hx)
    · exact Or.inr (mem_splitOnChar '/' rpath s h1 x hx)

lemma resolveSegments_no (segs : List (List Char)) (x : Char)
    (h : ∀ s ∈ segs, x ∉ s) (hxs : x ≠ '/') : x ∉ resolveSegments segs := by
  have hres0 : ∀ s ∈ segs.foldl resolveStep [], x ∉ s := by
    intro s h1
    rcases mem_foldl_resolveStep segs [] s h1 with h2 | h2
    · simp at h2
    · exact h s h2
  have hres1 : ∀ s ∈ segs.foldl resolveStep [] ++ [[]], x ∉ s := by
    intro s h1
    rcases List.mem_append.mp h1 with h2 | h2
    · exact hres0 s h2
    · simp only [List.mem_singleton] at h2
      subst h2
      simp
  simp only [resolveSegments]
  split
  · split
    · intro hx
      exact hxs (List.mem_singleton.mp hx)
    · intro hx
      rcases mem_joinChar '/' _ x hx with rfl | ⟨s, hsmem, hxin⟩
      · exact hxs rfl
      · exact hres1 s hsmem hxin
  · split
    · intro hx
      exact hxs (List.mem_singleton.mp hx)
    · intro hx
      rcases mem_joinChar '/' _ x hx with rfl | ⟨s, hsmem, hxin⟩
      · exact hxs rfl
      · exact hres0 s hsmem hxin

lemma mergePaths_no (bpath rpath : List Char) (x : Char)
    (hb : x ∉ bpath) (hr : x ∉ rpath) (hxs : x ≠ '/') :
    x ∉ mergePaths bpath rpath := by
  refine resolveSegments_no _ x ?_ hxs
  intro s hs hx
  rcases mem_mergeSegments bpath rpath s hs x hx with h1 | h1
  · exact hb h1
  · exact hr h1

/-! ### Character lemmas about urlunsplit and urljoin -/

lemma urlunsplit_no (u : SplitUrl) (x : Char)
    (h1 : x ∉ u.scheme) (h2 : x ∉ u.netloc) (h3 : x ∉ u.path)
    (h4 : u.query = [] ∨ (x ≠ '?' ∧ x ∉ u.query))
    (h5 : u.fragment = [] ∨ (x ≠ '#' ∧ x ∉ u.fragment))
    (h6 : x ≠ '/') (h7 : x ≠ ':') :
    x ∉ urlunsplit u := by
  have hp1 : x ∉ (if u.netloc ≠ [] ∨ u.path.take 2 = ['/', '/'] then
      '/' :: '/' :: (u.netloc ++
        (if u.path ≠ [] ∧ u.path.take 1 ≠ ['/'] then '/' :: u.path else u.path))
    else u.path) := by
    split
    · intro hx
      rcases List.mem_cons.mp hx with rfl | hx
      · exact h6 rfl
      rcases List.mem_cons.mp hx with rfl | hx
      · exact h6 rfl
      rcases List.mem_append.mp hx with hx | hx
      · exact h2 hx
      · revert hx
        split
        · intro hx
          rcases List.mem_cons.mp hx with rfl | hx
          · exact h6 rfl
          · exact h3 hx
        · exact h3
    · exact h3
  have hp2 : x ∉ (if u.scheme ≠ [] then u.scheme ++ ':' :: (if u.netloc ≠ [] ∨ u.path.take 2 = ['/', '/'] then
      '/' :: '/' :: (u.netloc ++
        (if u.path ≠ [] ∧ u.path.take 1 ≠ ['/'] then '/' :: u.path else u.path))
    else u.path) else (if u.netloc ≠ [] ∨ u.path.take 2 = ['/', '/'] then
      '/' :: '/' :: (u.netloc ++
        (if u.path ≠ [] ∧ u.path.take 1 ≠ ['/'] then '/' :: u.path else u.path))
    else u.path)) := by
    split
    · intro hx
      rcases List.mem_append.mp hx with hx | hx
      · exact h1 hx
      rcases List.mem_cons.mp hx with rfl | hx
      · exact h7 rfl
      · exact hp1 hx
    · exact hp1
  show x ∉ (if u.fragment ≠ [] then _ ++ '#' :: u.fragment else _)
  split
  · rename_i hfrag
    intro hx
    rcases List.mem_append.mp hx with hx | hx
    · revert hx
      show x ∉ (if u.query ≠ [] then _ ++ '?' :: u.query else _)
      split
      · rename_i hquery
        intro hx
        rcases List.mem_append.mp hx with hx | hx
        · exact hp2 hx
        rcases List.mem_cons.mp hx with rfl | hx
        · rcases h4 with h4 | h4
          · exact hquery h4
          · exact h4.1 rfl
        · rcases h4 with h4 | h4
          · rw [h4] at hx; simp at hx
          · exact h4.2 hx
      · exact hp2
    · rcases List.mem_cons.mp hx with rfl | hx
      · rcases h5 with h5 | h5
        · exact hfrag h5
        · exact h5.1 rfl
      · rcases h5 with h5 | h5
        · rw [h5] at hx; simp at hx
        · exact h5.2 hx
  · show x ∉ (if u.query ≠ [] then _ ++ '?' :: u.query else _)
    split
    · rename_i hquery
      intro hx
      rcases List.mem_append.mp hx with hx | hx
      · exact hp2 hx
      rcases List.mem_cons.mp hx with rfl | hx
      · rcases h4 with h4 | h4
        · exact hquery h4
        · exact h4.1 rfl
      · rcases h4 with h4 | h4
        · rw [h4] at hx; simp at hx
        · exact h4.2 hx
    · exact hp2

lemma urljoin_no_hash (b r : List Char) (hb : '#' ∉ b) (hr : '#' ∉ r) :
    '#' ∉ urljoin b r := by
  have hscheme : ∀ t : List Char, '#' ∉ (urlsplitCore t).scheme :=
    fun t => urlsplit_scheme_no t '#' (by decide)
  have hnetloc : ∀ t : List Char, '#' ∉ (urlsplitCore t).netloc :=
    fun t => urlsplit_netloc_no t '#' (by tauto)
  unfold urljoin
  split
  · exact hr
  split
  · exact hb
  dsimp only
  set sch := (if (urlsplitCore r).scheme = [] then (urlsplitCore b).scheme
    else (urlsplitCore r).scheme) with hschdef
  have hsch : '#' ∉ sch := by
    rw [hschdef]
    split
    · exact hscheme b
    · exact hscheme r
  set nl := (if sch ∈ uses_netloc then (urlsplitCore b).netloc
    else (urlsplitCore r).netloc) with hnldef
  have hnl : '#' ∉ nl := by
    rw [hnldef]
    split
    · exact hnetloc b
    · exact hnetloc r
  set qr := (if (urlsplitCore r).query = [] then (urlsplitCore b).query
    else (urlsplitCore r).query) with hqrdef
  have hqr : '#' ∉ qr := by
    rw [hqrdef]
    split
    · exact urlsplit_query_no_hash b
    · exact urlsplit_query_no_hash r
  split
  · exact hr
  split
  · exact urlunsplit_no _ '#' hsch (hnetloc r) (urlsplit_path_no_hash r)
      (Or.inr ⟨by decide, urlsplit_query_no_hash r⟩)
      (Or.inl (urlsplit_fragment_empty r hr)) (by decide) (by decide)
  split
  · exact urlunsplit_no _ '#' hsch hnl (urlsplit_path_no_hash b)
      (Or.inr ⟨by decide, hqr⟩)
      (Or.inl (urlsplit_fragment_empty r hr)) (by decide) (by decide)
  · exact urlunsplit_no _ '#' hsch hnl
      (mergePaths_no _ _ '#' (urlsplit_path_no_hash b) (urlsplit_path_no_hash r)
        (by decide))
      (Or.inr ⟨by decide, urlsplit_query_no_hash r⟩)
      (Or.inl (urlsplit_fragment_empty r hr)) (by decide) (by decide)

lemma urljoin_no_q (b r : List Char) (hb : '?' ∉ b) (hr : '?' ∉ r) :
    '?' ∉ urljoin b r := by
  have hscheme : ∀ t : List Char, '?' ∉ (urlsplitCore t).scheme :=
    fun t => urlsplit_scheme_no t '?' (by decide)
  have hnetloc : ∀ t : List Char, '?' ∉ (urlsplitCore t).netloc :=
    fun t => urlsplit_netloc_no t '?' (by tauto)
  have hfragr : '?' ∉ (urlsplitCore r).fragment :=
    fun hx => hr (mem_urlsplit_fragment r hx)
  unfold urljoin
  split
  · exact hr
  split
  · exact hb
  dsimp only
  set sch := (if (urlsplitCore r).scheme = [] then (urlsplitCore b).scheme
    else (urlsplitCore r).scheme) with hschdef
  have hsch : '?' ∉ sch := by
    rw [hschdef]
    split
    · exact hscheme b
    · exact hscheme r
  set nl := (if sch ∈ uses_netloc then (urlsplitCore b).netloc
    else (urlsplitCore r).netloc) with hnldef
  have hnl : '?' ∉ nl := by
    rw [hnldef]
    split
    · exact hnetloc b
    · exact hnetloc r
  set qr := (if (urlsplitCore r).query = [] then (urlsplitCore b).query
    else (urlsplitCore r).query) with hqrdef
  have hqr : qr = [] := by
    rw [hqrdef]
    split
    · exact urlsplit_query_empty b hb
    · exact urlsplit_query_empty r hr
  split
  · exact hr
  split
  · exact urlunsplit_no _ '?' hsch (hnetloc r) (urlsplit_path_no_q r)
      (Or.inl (urlsplit_query_empty r hr))
      (Or.inr ⟨by decide, hfragr⟩) (by decide) (by decide)
  split
  · exact urlunsplit_no _ '?' hsch hnl (urlsplit_path_no_q b)
      (Or.inl hqr)
      (Or.inr ⟨by decide, hfragr⟩) (by decide) (by decide)
  · exact urlunsplit_no _ '?' hsch hnl
      (mergePaths_no _ _ '?' (urlsplit_path_no_q b) (urlsplit_path_no_q r)
        (by decide))
      (Or.inl (urlsplit_query_empty r hr))
      (Or.inr ⟨by decide, hfragr⟩) (by decide) (by decide)

/-- C6 as amended: for an accepted href with no authority component, the
returned URL contains no hash sign (the fragment is dropped by the join
through the path component); an href carrying its own authority keeps its
fragment, as the counterexample shows. -/
theorem C6_relative_fragment_dropped :
    ∀ (hostname l s : String), '#' ∉ hostname.data →
    (urlsplitCore l.data).netloc = [] →
    create_full_link hostname l = some s → '#' ∉ s.data := by
  intro hostname l s hh hn hc
  have he : create_full_link hostname l
      = some (String.mk (urljoin hostname.data (urlsplitCore l.data).path)) := by
    simp [create_full_link, hn]
  rw [he] at hc
  obtain rfl := Option.some.inj hc
  exact urljoin_no_hash _ _ hh (urlsplit_path_no_hash _)

/-- Witness for the hypotheses of the amended C6 theorem. -/
theorem C6_relative_fragment_dropped_witness :
    '#' ∉ ("https://e.com/a" : String).data :=
  C6_relative_fragment_dropped "https://e.com" "/a#f" "https://e.com/a"
    (by decide) (by decide) (by decide)

/-- C10: for every href with an empty authority component, create_full_link
returns exactly the join of the hostname with the path component of the
href, and on a hostname free of hash and question marks the produced URL
contains neither, so the query string and the fragment of such an href are
removed. -/
theorem C10_relative_join_drops_query_fragment :
    ∀ (hostname l : String), '#' ∉ hostname.data → '?' ∉ hostname.data →
    (urlsplitCore l.data).netloc = [] →
    create_full_link hostname l
      = some (String.mk (urljoin hostname.data (urlsplitCore l.data).path)) ∧
    '#' ∉ urljoin hostname.data (urlsplitCore l.data).path ∧
    '?' ∉ urljoin hostname.data (urlsplitCore l.data).path := by
  intro hostname l hh hq hn
  refine ⟨?_, ?_, ?_⟩
  · simp [create_full_link, hn]
  · exact urljoin_no_hash _ _ hh (urlsplit_path_no_hash _)
  · exact urljoin_no_q _ _ hq (urlsplit_path_no_q _)

/-- Witness for the hypotheses of the C10 theorem. -/
theorem C10_relative_join_drops_query_fragment_witness :
    create_full_link "https://e.com" "/a?x=1#f"
      = some (String.mk (urljoin "https://e.com".data (urlsplitCore "/a?x=1#f".data).path)) ∧
    '#' ∉ urljoin "https://e.com".data (urlsplitCore "/a?x=1#f".data).path ∧
    '?' ∉ urljoin "https://e.com".data (urlsplitCore "/a?x=1#f".data).path :=
  C10_relative_join_drops_query_fragment "https://e.com" "/a?x=1#f"
    (by decide) (by decide) (by decide)

end SWC
